import Mathlib

/-!
Verification of the `metric` program (`src/main.go`).

The program fetches ERC-20 `Transfer` logs over a 100-block window ending at
the chain head, decodes each log (skipping malformed ones), counts per-address
occurrences as sender or receiver, excludes the zero address, and returns the
addresses sorted in descending order of count.  `main` then prints the entries
at indices 0 through 4 of the result unconditionally.

Shallow embedding choices:
* `common.Address` (20 bytes) and `common.Hash` (32 bytes) become `Nat` values;
  the zero address is `0`.  `common.HexToAddress` applied to a 32-byte topic
  keeps the last 20 bytes, i.e. reduces the value modulo `2 ^ 160`.
* The Go `map[common.Address]int` becomes an association list
  `List (Nat × Nat)` with unique keys; Go's arbitrary map-iteration order is
  modelled by quantifying over permutations of the association list.
* `sort.Slice` with comparator `Count > Count` guarantees a descending-sorted
  permutation of its input; it is embedded as insertion sort with the same
  comparator.
* Remote calls (`HeaderByNumber`, `FilterLogs`) and the static ABI parse are
  external collaborators; the embedding covers the pure computation applied to
  their results (the head block number and the raw log slice).
-/

namespace Main

/-- A raw log entry as delivered by `FilterLogs`: a list of 32-byte topics and
a byte payload (`vLog.Topics`, `vLog.Data` in `main.go`). -/
structure Log where
  topics : List Nat
  data : List Nat
  deriving DecidableEq, Repr

/-- `type TransferEvents struct { From, To common.Address; Value *big.Int }`. -/
structure TransferEvents where
  From : Nat
  To : Nat
  Value : Nat
  deriving DecidableEq, Repr

/-- `type Metric struct { Address common.Address; Count int }`.  Counts are
only ever incremented from zero, so `Nat` is faithful. -/
structure Metric where
  Address : Nat
  Count : Nat
  deriving DecidableEq, Repr

/-- `common.HexToAddress(vLog.Topics[i].Hex())`: a 32-byte word is truncated
to its last 20 bytes, i.e. reduced modulo `2 ^ 160`. -/
def hexToAddress (h : Nat) : Nat := h % 2 ^ 160

/-- `contractAbi.UnpackIntoInterface(&transferEvent, "Transfer", vLog.Data)`
for the single non-indexed field `value uint256`: reading a 32-byte big-endian
word at offset 0 succeeds iff the payload holds at least 32 bytes. -/
def unpackUint256 (data : List Nat) : Option Nat :=
  if 32 ≤ data.length then
    some ((data.take 32).foldl (fun acc b => acc * 256 + b) 0)
  else
    none

/-- `metric[a]++` on the aggregation map: bump the entry for key `a`,
creating it with value `1` when absent (Go maps default to `0`). -/
def mapIncr (m : List (Nat × Nat)) (a : Nat) : List (Nat × Nat) :=
  match m with
  | [] => [(a, 1)]
  | (k, v) :: rest => if k = a then (k, v + 1) :: rest else (k, v) :: mapIncr rest a

/-- Lookup in the aggregation map, with Go's zero default for absent keys. -/
def mapGet (m : List (Nat × Nat)) (a : Nat) : Nat :=
  match m with
  | [] => 0
  | (k, v) :: rest => if k = a then v else mapGet rest a

/-- The two increments performed for one decoded transfer record
(lines 106–107 of `main.go`): `metric[transferEvent.From]++;
metric[transferEvent.To]++`. -/
def recordStep (m : List (Nat × Nat)) (ev : TransferEvents) : List (Nat × Nat) :=
  mapIncr (mapIncr m ev.From) ev.To

/-- One iteration of the decode loop (lines 91–108 of `main.go`): skip the log
when it does not carry exactly 3 topics or has empty data; build the transfer
record from topics 1 and 2; skip (after logging) when the data payload fails
to unpack; otherwise increment `from` and `to`. -/
def processLog (m : List (Nat × Nat)) (vLog : Log) : List (Nat × Nat) :=
  if vLog.topics.length ≠ 3 ∨ vLog.data.length = 0 then m
  else
    match unpackUint256 vLog.data with
    | none => m
    | some v =>
        let transferEvent : TransferEvents :=
          { From := hexToAddress (vLog.topics.getD 1 0)
            To := hexToAddress (vLog.topics.getD 2 0)
            Value := v }
        recordStep m transferEvent

/-- The full decode-and-aggregate loop over the fetched logs, starting from
the empty map (`metric := make(map[common.Address]int)`). -/
def aggregate (logs : List Log) : List (Nat × Nat) :=
  logs.foldl processLog []

/-- Insertion step of the descending sort: the element is placed before the
first entry of strictly smaller count (comparator
`counters[i].Count > counters[j].Count`). -/
def insertDesc (x : Metric) : List Metric → List Metric
  | [] => [x]
  | y :: ys => if x.Count > y.Count then x :: y :: ys else y :: insertDesc x ys

/-- `sort.Slice(counters, ...)` with the descending-count comparator:
a sorted permutation of the input. -/
def sortDesc : List Metric → List Metric
  | [] => []
  | x :: xs => insertDesc x (sortDesc xs)

/-- `SortAddressesByCount` (lines 113–132 of `main.go`): error on an empty
map, otherwise keep the non-zero-address entries and sort them in descending
order of count.  The map is given as one of its (arbitrary-order) entry
lists. -/
def SortAddressesByCount (logsMap : List (Nat × Nat)) : Except String (List Metric) :=
  if logsMap.length = 0 then
    Except.error "no logs in map to sort"
  else
    let counters := (logsMap.filter (fun p => p.1 ≠ 0)).map
      (fun p => { Address := p.1, Count := p.2 : Metric })
    Except.ok (sortDesc counters)

/-- The pure tail of `currentBlock` (lines 89–110): aggregate the fetched
logs and rank the addresses. -/
def currentBlockAggregate (logs : List Log) : Except String (List Metric) :=
  SortAddressesByCount (aggregate logs)

/-- The block range put into the `ethereum.FilterQuery` (lines 64–76):
`FromBlock = head − 99`, `ToBlock = head`.  Block numbers are `big.Int`,
hence `Int`. -/
structure FilterQuery where
  FromBlock : Int
  ToBlock : Int
  deriving DecidableEq, Repr

/-- Lines 64–76 of `main.go`: build the filter query from the latest block
number. -/
def buildQuery (latestBlockNumber : Int) : FilterQuery :=
  { FromBlock := latestBlockNumber - 99, ToBlock := latestBlockNumber }

/-- The print loop of `main` (lines 52–54): access indices 0 through 4 of the
ranked result unconditionally; `none` models the out-of-bounds panic of
`metrics[i]` when the list is shorter than 5 (including the `nil` result the
error path leaves behind). -/
def printTop (metrics : List Metric) : Option (List Metric) :=
  match metrics.get? 0, metrics.get? 1, metrics.get? 2, metrics.get? 3, metrics.get? 4 with
  | some a, some b, some c, some d, some e => some [a, b, c, d, e]
  | _, _, _, _, _ => none

/-- Total count credited to address `a` in a ranked sequence. -/
def countFor (r : List Metric) (a : Nat) : Nat :=
  ((r.filter (fun m => m.Address = a)).map Metric.Count).sum

/-- A log survives the shape check of line 92: exactly 3 topics and a
non-empty data payload. -/
def wellShaped (l : Log) : Bool :=
  decide (l.topics.length = 3) && decide (l.data.length ≠ 0)

/-- The spec's worked scenario: three well-formed transfer logs
`A → B`, `B → A`, `A → A` with `A = 1`, `B = 2` (distinct, non-zero).  The
first topic is the event-signature hash (opaque to the decode loop; `7`
here), and each data payload is a 32-byte zero word. -/
def scenarioLogs : List Log :=
  [ { topics := [7, 1, 2], data := List.replicate 32 0 },
    { topics := [7, 2, 1], data := List.replicate 32 0 },
    { topics := [7, 1, 1], data := List.replicate 32 0 } ]

/-- The descending ranking order used by the sort comparator. -/
def rankLe (a b : Metric) : Prop := b.Count ≤ a.Count

theorem mapGet_mapIncr (m : List (Nat × Nat)) (k a : Nat) :
    mapGet (mapIncr m k) a = mapGet m a + (if a = k then 1 else 0) := by
  induction m with
  | nil =>
      by_cases h : a = k
      · subst h; simp [mapIncr, mapGet]
      · simp [mapIncr, mapGet, h, Ne.symm h]
  | cons p rest ih =>
      obtain ⟨k', v⟩ := p
      by_cases hk : k' = k
      · subst hk
        by_cases ha : k' = a
        · subst ha; simp [mapIncr, mapGet]
        · simp [mapIncr, mapGet, ha, Ne.symm ha]
      · by_cases ha : k' = a
        · subst ha
          simp [mapIncr, mapGet, hk, fun h : k' = k => hk h]
        · simp [mapIncr, mapGet, hk, ha, ih]

theorem mapIncr_mem_pos (m : List (Nat × Nat)) (k : Nat)
    (hm : ∀ p ∈ m, 1 ≤ p.2) : ∀ p ∈ mapIncr m k, 1 ≤ p.2 := by
  induction m with
  | nil =>
      intro p hp
      simp only [mapIncr, List.mem_singleton] at hp
      subst hp; exact Nat.le_refl 1
  | cons q rest ih =>
      obtain ⟨k', v⟩ := q
      intro p hp
      simp only [mapIncr] at hp
      by_cases hk : k' = k
      · rw [if_pos hk] at hp
        rcases List.mem_cons.1 hp with h | h
        · subst h; exact Nat.le_add_left 1 v
        · exact hm p (List.mem_cons_of_mem _ h)
      · rw [if_neg hk] at hp
        rcases List.mem_cons.1 hp with h | h
        · subst h; exact hm (k', v) (List.mem_cons_self _ _)
        · exact ih (fun q hq => hm q (List.mem_cons_of_mem _ hq)) p h

theorem processLog_mem_pos (m : List (Nat × Nat)) (vLog : Log)
    (hm : ∀ p ∈ m, 1 ≤ p.2) : ∀ p ∈ processLog m vLog, 1 ≤ p.2 := by
  unfold processLog
  by_cases h : vLog.topics.length ≠ 3 ∨ vLog.data.length = 0
  · rw [if_pos h]; exact hm
  · rw [if_neg h]
    cases hu : unpackUint256 vLog.data with
    | none => exact hm
    | some v =>
        exact mapIncr_mem_pos _ _ (mapIncr_mem_pos _ _ hm)

theorem aggregate_mem_pos (logs : List Log) : ∀ p ∈ aggregate logs, 1 ≤ p.2 := by
  unfold aggregate
  have h : ∀ (m : List (Nat × Nat)), (∀ p ∈ m, 1 ≤ p.2) →
      ∀ p ∈ logs.foldl processLog m, 1 ≤ p.2 := by
    induction logs with
    | nil => intro m hm; simpa using hm
    | cons l rest ih =>
        intro m hm
        simpa using ih (processLog m l) (processLog_mem_pos m l hm)
  exact h [] (by simp)

theorem processLog_skip (m : List (Nat × Nat)) (vLog : Log)
    (h : vLog.topics.length ≠ 3 ∨ vLog.data.length = 0) :
    processLog m vLog = m := by
  unfold processLog; rw [if_pos h]

theorem processLog_skip_unpack (m : List (Nat × Nat)) (vLog : Log)
    (h : ¬(vLog.topics.length ≠ 3 ∨ vLog.data.length = 0))
    (hu : unpackUint256 vLog.data = none) :
    processLog m vLog = m := by
  unfold processLog; rw [if_neg h, hu]

theorem insertDesc_perm (x : Metric) (l : List Metric) :
    (insertDesc x l).Perm (x :: l) := by
  induction l with
  | nil => exact List.Perm.refl _
  | cons y ys ih =>
      simp only [insertDesc]
      by_cases h : x.Count > y.Count
      · rw [if_pos h]
      · rw [if_neg h]
        exact (ih.cons y).trans (List.Perm.swap x y ys)

theorem sortDesc_perm (l : List Metric) : (sortDesc l).Perm l := by
  induction l with
  | nil => exact List.Perm.refl _
  | cons x xs ih =>
      exact (insertDesc_perm x (sortDesc xs)).trans (ih.cons x)

theorem insertDesc_sorted (x : Metric) (l : List Metric)
    (hl : l.Sorted rankLe) : (insertDesc x l).Sorted rankLe := by
  induction l with
  | nil => simp [insertDesc, List.sorted_singleton]
  | cons y ys ih =>
      rw [List.sorted_cons] at hl
      obtain ⟨hy, hys⟩ := hl
      simp only [insertDesc]
      by_cases h : x.Count > y.Count
      · rw [if_pos h, List.sorted_cons]
        refine ⟨?_, List.sorted_cons.2 ⟨hy, hys⟩⟩
        intro b hb
        rcases List.mem_cons.1 hb with hb | hb
        · subst hb; exact Nat.le_of_lt h
        · exact Nat.le_trans (hy b hb) (Nat.le_of_lt h)
      · rw [if_neg h, List.sorted_cons]
        refine ⟨?_, ih hys⟩
        intro b hb
        have hb' : b ∈ x :: ys := (insertDesc_perm x ys).mem_iff.1 hb
        rcases List.mem_cons.1 hb' with hb' | hb'
        · subst hb'; exact Nat.le_of_not_lt h
        · exact hy b hb'

theorem sortDesc_sorted (l : List Metric) : (sortDesc l).Sorted rankLe := by
  induction l with
  | nil => simp [sortDesc, List.sorted_nil]
  | cons x xs ih => exact insertDesc_sorted x (sortDesc xs) ih

/-- C1: for every aggregation map (in any iteration order), the zero address
never appears in the ranked sequence returned by `SortAddressesByCount`, even
when the zero address carries a positive count in the map. -/
theorem zero_address_never_ranked (logsMap : List (Nat × Nat)) (r : List Metric)
    (h : SortAddressesByCount logsMap = Except.ok r) :
    ∀ m ∈ r, m.Address ≠ 0 := by
  unfold SortAddressesByCount at h
  by_cases h0 : logsMap.length = 0
  · rw [if_pos h0] at h; exact absurd h (by simp)
  · rw [if_neg h0] at h
    injection h with h
    subst h
    intro m hm
    have hm' := (sortDesc_perm _).mem_iff.1 hm
    obtain ⟨p, hp, rfl⟩ := List.mem_map.1 hm'
    have hp' := List.of_mem_filter hp
    simpa using hp'

/-- Witness for C1: a map in which the zero address holds a positive count. -/
theorem zero_address_never_ranked_witness :
    SortAddressesByCount [(0, 3), (1, 4)] = Except.ok [{ Address := 1, Count := 4 }] ∧
    ({ Address := 1, Count := 4 } : Metric).Address ≠ 0 :=
  ⟨rfl, zero_address_never_ranked [(0, 3), (1, 4)] [{ Address := 1, Count := 4 }] rfl
      { Address := 1, Count := 4 } (List.mem_singleton.2 rfl)⟩

/-- C2 counterexample: a non-empty map whose only key is the zero address
(here with count 2) is not reported as an error — the ranking step returns
an `ok` result carrying the empty sequence, because the emptiness check of
line 114 runs before the zero address is filtered out. -/
theorem zero_only_map_not_error :
    SortAddressesByCount [(0, 2)] = Except.ok [] := rfl

/-- C2 amended: the ranking step returns an explicit error exactly when the
aggregation map itself is empty; a non-empty map whose only key is the zero
address instead yields a successful, empty ranked sequence. -/
theorem sort_error_iff_empty_map (logsMap : List (Nat × Nat)) :
    (∃ e, SortAddressesByCount logsMap = Except.error e) ↔ logsMap = [] := by
  unfold SortAddressesByCount
  by_cases h0 : logsMap.length = 0
  · rw [if_pos h0]
    exact ⟨fun _ => List.length_eq_zero.1 h0, fun _ => ⟨"no logs in map to sort", rfl⟩⟩
  · rw [if_neg h0]
    constructor
    · rintro ⟨e, he⟩; exact absurd he (by simp)
    · intro h; subst h; simp at h0

/-- C3: the ranked sequence returned by `SortAddressesByCount` is sorted in
descending order of count: every two adjacent entries `(i, i+1)` satisfy
`count[i] ≥ count[i+1]`. -/
theorem ranked_sorted_desc (logsMap : List (Nat × Nat)) (r : List Metric)
    (h : SortAddressesByCount logsMap = Except.ok r)
    (i : Nat) (a b : Metric) (ha : r.get? i = some a) (hb : r.get? (i + 1) = some b) :
    b.Count ≤ a.Count := by
  have hs : r.Sorted rankLe := by
    unfold SortAddressesByCount at h
    by_cases h0 : logsMap.length = 0
    · rw [if_pos h0] at h; exact absurd h (by simp)
    · rw [if_neg h0] at h
      injection h with h
      subst h
      exact sortDesc_sorted _
  obtain ⟨hi, hga⟩ := List.get?_eq_some.1 ha
  obtain ⟨hj, hgb⟩ := List.get?_eq_some.1 hb
  subst hga
  subst hgb
  exact hs.rel_get_of_lt (show (⟨i, hi⟩ : Fin r.length) < ⟨i + 1, hj⟩ from Nat.lt_succ_self i)

/-- Witness for C3: two addresses with distinct counts, checked at the
adjacent pair (0, 1). -/
theorem ranked_sorted_desc_witness :
    SortAddressesByCount [(1, 1), (2, 5)] =
      Except.ok [{ Address := 2, Count := 5 }, { Address := 1, Count := 1 }] ∧
    ({ Address := 1, Count := 1 } : Metric).Count ≤ ({ Address := 2, Count := 5 } : Metric).Count :=
  ⟨rfl, ranked_sorted_desc [(1, 1), (2, 5)]
      [{ Address := 2, Count := 5 }, { Address := 1, Count := 1 }] rfl 0
      { Address := 2, Count := 5 } { Address := 1, Count := 1 } rfl rfl⟩

/-- C4: aggregation increments the map entry for `from` by 1 and for `to` by
1 per record, so a self-transfer contributes exactly 2 to that address; on the
spec scenario `[A→B, B→A, A→A]` with `A = 1`, `B = 2` (distinct, non-zero)
the counts are `A = 4`, `B = 2` and the ranked sequence is `[A(4), B(2)]`. -/
theorem record_increments_and_scenario :
    (∀ (m : List (Nat × Nat)) (ev : TransferEvents) (a : Nat),
        mapGet (recordStep m ev) a =
          mapGet m a + (if a = ev.From then 1 else 0) + (if a = ev.To then 1 else 0)) ∧
    (∀ (m : List (Nat × Nat)) (a v : Nat),
        mapGet (recordStep m { From := a, To := a, Value := v }) a = mapGet m a + 2) ∧
    currentBlockAggregate scenarioLogs =
      Except.ok [{ Address := 1, Count := 4 }, { Address := 2, Count := 2 }] := by
  refine ⟨?_, ?_, rfl⟩
  · intro m ev a
    unfold recordStep
    rw [mapGet_mapIncr, mapGet_mapIncr]
  · intro m a v
    unfold recordStep
    rw [mapGet_mapIncr, mapGet_mapIncr]
    simp

/-- C5: log entries with topic count ≠ 3 or an empty data payload contribute
to no count: aggregation is invariant under dropping all of them, and hence
under adding or removing any such malformed entries. -/
theorem malformed_logs_ignored :
    (∀ logs : List Log, aggregate logs = aggregate (logs.filter wellShaped)) ∧
    (∀ logs1 logs2 : List Log,
        logs1.filter wellShaped = logs2.filter wellShaped →
        aggregate logs1 = aggregate logs2) := by
  have key : ∀ (logs : List Log) (m : List (Nat × Nat)),
      logs.foldl processLog m = (logs.filter wellShaped).foldl processLog m := by
    intro logs
    induction logs with
    | nil => intro m; rfl
    | cons l rest ih =>
        intro m
        by_cases hw : wellShaped l = true
        · rw [List.filter_cons, if_pos hw, List.foldl_cons, List.foldl_cons]
          exact ih (processLog m l)
        · have hw' : wellShaped l = false := by simpa using hw
          have hmal : l.topics.length ≠ 3 ∨ l.data.length = 0 := by
            by_cases h3 : l.topics.length = 3
            · right
              by_contra hd
              exact hw (by simp [wellShaped, h3, hd])
            · left; exact h3
          rw [List.filter_cons, hw', if_neg (by simp), List.foldl_cons,
            processLog_skip m l hmal]
          exact ih m
  have hfilter : ∀ logs : List Log,
      aggregate logs = aggregate (logs.filter wellShaped) := by
    intro logs
    unfold aggregate
    exact key logs []
  refine ⟨hfilter, fun logs1 logs2 h => ?_⟩
  rw [hfilter logs1, hfilter logs2, h]

/-- Witness for C5: a 2-topic (malformed) log is dropped without affecting
the aggregation result. -/
theorem malformed_logs_ignored_witness :
    (([({ topics := [7, 1], data := [0] } : Log)].filter wellShaped) =
      ([] : List Log).filter wellShaped) ∧
    aggregate [{ topics := [7, 1], data := [0] }] = aggregate [] :=
  ⟨rfl, malformed_logs_ignored.2 [{ topics := [7, 1], data := [0] }] [] rfl⟩

/-- C6: the filtered-log query scans the fixed 100-block window ending at the
chain head: `FromBlock = head − 99` and `ToBlock = head`. -/
theorem query_range_window (latestBlockNumber : Int) :
    (buildQuery latestBlockNumber).FromBlock = latestBlockNumber - 99 ∧
    (buildQuery latestBlockNumber).ToBlock = latestBlockNumber ∧
    (buildQuery latestBlockNumber).ToBlock - (buildQuery latestBlockNumber).FromBlock + 1 = 100 := by
  refine ⟨rfl, rfl, ?_⟩
  show latestBlockNumber - (latestBlockNumber - 99) + 1 = 100
  omega

/-- C7: a shape-valid log whose data payload fails to unpack is logged and
skipped: it changes no count, processing continues with the remaining logs,
and the overall fetch-decode result is unchanged (the failure does not
propagate as an error). -/
theorem decode_failure_skipped (m : List (Nat × Nat)) (vLog : Log)
    (logs1 logs2 : List Log)
    (h3 : vLog.topics.length = 3) (hd : vLog.data.length ≠ 0)
    (hu : unpackUint256 vLog.data = none) :
    processLog m vLog = m ∧
    currentBlockAggregate (logs1 ++ vLog :: logs2) =
      currentBlockAggregate (logs1 ++ logs2) := by
  have hskip : ∀ m' : List (Nat × Nat), processLog m' vLog = m' := fun m' =>
    processLog_skip_unpack m' vLog (by simp [h3, hd]) hu
  refine ⟨hskip m, ?_⟩
  unfold currentBlockAggregate
  congr 1
  unfold aggregate
  rw [List.foldl_append, List.foldl_append, List.foldl_cons, hskip]

/-- Witness for C7: a log with 3 topics and a 1-byte (hence undecodable)
payload, spliced in front of the scenario logs. -/
theorem decode_failure_skipped_witness :
    unpackUint256 [5] = none ∧
    currentBlockAggregate ([] ++ { topics := [7, 1, 2], data := [5] } :: scenarioLogs) =
      currentBlockAggregate ([] ++ scenarioLogs) :=
  ⟨rfl, (decode_failure_skipped [] { topics := [7, 1, 2], data := [5] } [] scenarioLogs rfl
      (by simp) rfl).2⟩

/-- C8: the top-level print step accesses ranked-result indices 0 through 4
unconditionally: every result with fewer than 5 entries (including the nil
result left behind by the error path) fails out of bounds (`none`), and every
result with at least 5 entries prints exactly the top 5. -/
theorem print_top5_behavior (metrics : List Metric) :
    printTop metrics = if 5 ≤ metrics.length then some (metrics.take 5) else none := by
  match metrics with
  | [] => rfl
  | [a] => rfl
  | [a, b] => rfl
  | [a, b, c] => rfl
  | [a, b, c, d] => rfl
  | a :: b :: c :: d :: e :: rest =>
      have hlen : 5 ≤ (a :: b :: c :: d :: e :: rest).length := by
        simp only [List.length_cons]
        omega
      rw [if_pos hlen]
      rfl

/-- C9: the per-address counts of the decode-and-aggregate step are
deterministic in the input logs: however Go's map iteration orders the
aggregation map on two runs over the same logs, the two ranked sequences are
permutations of each other and give every address the same total count. -/
theorem aggregation_deterministic (logs : List Log) (l1 l2 : List (Nat × Nat))
    (hp1 : (aggregate logs).Perm l1) (hp2 : (aggregate logs).Perm l2)
    (r1 r2 : List Metric)
    (h1 : SortAddressesByCount l1 = Except.ok r1)
    (h2 : SortAddressesByCount l2 = Except.ok r2) :
    r1.Perm r2 ∧ ∀ a, countFor r1 a = countFor r2 a := by
  have hll : l1.Perm l2 := hp1.symm.trans hp2
  have e1 : r1 = sortDesc ((l1.filter (fun p => p.1 ≠ 0)).map
      (fun p => { Address := p.1, Count := p.2 : Metric })) := by
    unfold SortAddressesByCount at h1
    by_cases h0 : l1.length = 0
    · rw [if_pos h0] at h1; exact absurd h1 (by simp)
    · rw [if_neg h0] at h1; injection h1 with h1; exact h1.symm
  have e2 : r2 = sortDesc ((l2.filter (fun p => p.1 ≠ 0)).map
      (fun p => { Address := p.1, Count := p.2 : Metric })) := by
    unfold SortAddressesByCount at h2
    by_cases h0 : l2.length = 0
    · rw [if_pos h0] at h2; exact absurd h2 (by simp)
    · rw [if_neg h0] at h2; injection h2 with h2; exact h2.symm
  have hperm : r1.Perm r2 := by
    rw [e1, e2]
    exact (sortDesc_perm _).trans (((hll.filter _).map _).trans (sortDesc_perm _).symm)
  refine ⟨hperm, fun a => ?_⟩
  unfold countFor
  exact ((hperm.filter _).map _).sum_eq

/-- Witness for C9: the scenario logs, with the two map-iteration orders of
the aggregation map `{1 ↦ 4, 2 ↦ 2}`. -/
theorem aggregation_deterministic_witness :
    (aggregate scenarioLogs).Perm [(2, 2), (1, 4)] ∧
    countFor [{ Address := 1, Count := 4 }, { Address := 2, Count := 2 }] 1 =
      countFor [{ Address := 1, Count := 4 }, { Address := 2, Count := 2 }] 1 :=
  ⟨List.Perm.swap _ _ _,
    (aggregation_deterministic scenarioLogs [(1, 4), (2, 2)] [(2, 2), (1, 4)]
      (List.Perm.refl _) (List.Perm.swap _ _ _)
      [{ Address := 1, Count := 4 }, { Address := 2, Count := 2 }]
      [{ Address := 1, Count := 4 }, { Address := 2, Count := 2 }] rfl rfl).2 1⟩

/-- C10: every entry of the ranked sequence produced by the pipeline has a
strictly positive count (not merely the `count ≥ 0` of the data model),
because map entries are created only by incrementing from zero. -/
theorem ranked_counts_positive (logs : List Log) (r : List Metric)
    (h : currentBlockAggregate logs = Except.ok r) :
    ∀ m ∈ r, 1 ≤ m.Count := by
  unfold currentBlockAggregate SortAddressesByCount at h
  by_cases h0 : (aggregate logs).length = 0
  · rw [if_pos h0] at h; exact absurd h (by simp)
  · rw [if_neg h0] at h
    injection h with h
    subst h
    intro m hm
    have hm' := (sortDesc_perm _).mem_iff.1 hm
    obtain ⟨p, hp, rfl⟩ := List.mem_map.1 hm'
    exact aggregate_mem_pos logs p (List.mem_of_mem_filter hp)

/-- Witness for C10: the scenario pipeline run, with its top entry. -/
theorem ranked_counts_positive_witness :
    currentBlockAggregate scenarioLogs =
      Except.ok [{ Address := 1, Count := 4 }, { Address := 2, Count := 2 }] ∧
    1 ≤ ({ Address := 1, Count := 4 } : Metric).Count :=
  ⟨rfl, ranked_counts_positive scenarioLogs
      [{ Address := 1, Count := 4 }, { Address := 2, Count := 2 }] rfl
      { Address := 1, Count := 4 } (List.mem_cons_self _ _)⟩

end Main
